import Mathlib

/-!
Verification of the pulse-detection core of `src/src/hooks/usePulseDetection.ts`.

The embedding is shallow: JS numbers are modelled as exact rationals (`ℚ`),
millisecond timestamps as integers, nullable refs as `Option`, and the
side-effecting teardown calls (`cancelAnimationFrame`, `clearInterval`,
`clearTimeout`, `track.stop`) as an emitted list of `TeardownAction`s.
-/

namespace PulseMonitor

/-- JS `Math.round`: rounds half toward positive infinity. -/
def jsRound (q : ℚ) : Int := ⌊q + 1/2⌋

/-- JS `l.reduce((a, b) => a + b, 0)` on an array of numbers. -/
def sumQ (l : List ℚ) : ℚ := l.foldl (· + ·) 0

/-- JS `l.reduce((a, b) => a + b, 0)` on an array of integer timestamps. -/
def sumI (l : List Int) : Int := l.foldl (· + ·) 0

/-- `const minPeakDistance = 300` (milliseconds). -/
def minPeakDistance : Int := 300

/-- The peak-candidate test of the scan loop in `calculateBPM`
(`usePulseDetection.ts` lines 44-50): `normalized[i]` strictly exceeds its
two neighbours on each side and is strictly positive. Out-of-range reads
use `getD` (the loop of the source only evaluates it in range). -/
def isPeakCandidate (normalized : List ℚ) (i : Nat) : Bool :=
  decide (normalized.getD i 0 > normalized.getD (i - 1) 0) &&
  decide (normalized.getD i 0 > normalized.getD (i - 2) 0) &&
  decide (normalized.getD i 0 > normalized.getD (i + 1) 0) &&
  decide (normalized.getD i 0 > normalized.getD (i + 2) 0) &&
  decide (normalized.getD i 0 > 0)

/-- One iteration of the peak-scan loop body (`usePulseDetection.ts`
lines 43-55). The accumulator holds the accepted peak timestamps in
reverse order, so the source's `peaks[peaks.length - 1]` is the head. -/
def peakStep (normalized : List ℚ) (timestamps : List Int)
    (peaks : List Int) (i : Nat) : List Int :=
  if isPeakCandidate normalized i then
    match peaks with
    | [] => [timestamps.getD i 0]
    | p :: _ =>
      if timestamps.getD i 0 - p > minPeakDistance then
        timestamps.getD i 0 :: peaks
      else peaks
  else peaks

/-- The full peak scan: `for (let i = 2; i < normalized.length - 2; i++)`
over `peakStep`, returning the accepted peak timestamps in order. -/
def detectPeaks (normalized : List ℚ) (timestamps : List Int) : List Int :=
  ((List.range' 2 (normalized.length - 4)).foldl
    (peakStep normalized timestamps) []).reverse

/-- `calculateBPM(values, timestamps)` from `usePulseDetection.ts`
lines 34-68. -/
def calculateBPM (values : List ℚ) (timestamps : List Int) : ℚ :=
  if values.length < 60 then 0 else
  let mean : ℚ := sumQ values / (values.length : ℚ)
  let normalized : List ℚ := values.map (fun v => v - mean)
  let peaks : List Int := detectPeaks normalized timestamps
  if peaks.length < 2 then 0 else
  let intervals : List Int := List.zipWith (fun a b => a - b) peaks.tail peaks
  let avgInterval : ℚ := (sumI intervals : ℚ) / (intervals.length : ℚ)
  60000 / avgInterval

/-- `MAX_SAMPLES`: the literal 450 of `usePulseDetection.ts` line 134. -/
def MAX_SAMPLES : Nat := 450

/-- The signal buffer: `redValuesRef.current` and `timestampsRef.current`. -/
structure Buffer where
  values : List ℚ
  timestamps : List Int
deriving DecidableEq, Repr

/-- The buffer append of `analyzeFrame` (`usePulseDetection.ts`
lines 130-137): push both arrays, then shift both when length exceeds 450. -/
def appendSample (buf : Buffer) (v : ℚ) (t : Int) : Buffer :=
  let values := buf.values ++ [v]
  let timestamps := buf.timestamps ++ [t]
  if values.length > MAX_SAMPLES then ⟨values.tail, timestamps.tail⟩
  else ⟨values, timestamps⟩

/-- The brightness gate of `analyzeFrame` (`usePulseDetection.ts`
lines 127-137): compute `brightness = (avgRed + avgGreen + avgBlue) / 3`
and append a sample exactly when `80 < brightness < 240`. -/
def frameStep (buf : Buffer) (avgRed avgGreen avgBlue : ℚ) (t : Int) : Buffer :=
  let brightness := (avgRed + avgGreen + avgBlue) / 3
  if 80 < brightness ∧ brightness < 240 then appendSample buf avgRed t
  else buf

/-- Folding `appendSample` over a list of (red value, timestamp) samples,
starting from the empty buffer. -/
def appendAll (samples : List (ℚ × Int)) : Buffer :=
  samples.foldl (fun buf s => appendSample buf s.1 s.2) ⟨[], []⟩

/-- The buffer invariant of spec §3: values and timestamps aligned, at most
`MAX_SAMPLES` entries, timestamps non-decreasing. -/
def BufferInv (buf : Buffer) : Prop :=
  buf.values.length = buf.timestamps.length ∧
  buf.values.length ≤ MAX_SAMPLES ∧
  buf.timestamps.Chain' (· ≤ ·)

/-! ### Spec-side description of the estimator (spec §4.3, steps 1-5) -/

/-- Spec §4.3 step 2 (the candidate test, in the spec's order): a 5-point
strict local maximum whose value is strictly positive. -/
def specIsCandidate (normalized : List ℚ) (i : Nat) : Bool :=
  decide (normalized.getD (i - 2) 0 < normalized.getD i 0) &&
  decide (normalized.getD (i - 1) 0 < normalized.getD i 0) &&
  decide (normalized.getD (i + 1) 0 < normalized.getD i 0) &&
  decide (normalized.getD (i + 2) 0 < normalized.getD i 0) &&
  decide (0 < normalized.getD i 0)

/-- Spec §4.3 step 2: the candidate positions `i` with `2 ≤ i ≤ n - 3`
that pass the 5-point test. -/
def specCandidates (normalized : List ℚ) : List Nat :=
  (List.range normalized.length).filter (fun i =>
    decide (2 ≤ i) && decide (i + 2 < normalized.length) &&
    specIsCandidate normalized i)

/-- Spec §4.3 step 3: keep a candidate peak only when its timestamp is more
than 300 ms after the previously accepted peak's timestamp (the first
candidate is always accepted). -/
def spacingFilter : Option Int → List Int → List Int
  | _, [] => []
  | none, t :: ts => t :: spacingFilter (some t) ts
  | some p, t :: ts =>
    if 300 < t - p then t :: spacingFilter (some t) ts
    else spacingFilter (some p) ts

/-- Spec §4.3 steps 2-3 composed: the accepted peak timestamps. -/
def specAcceptedPeaks (normalized : List ℚ) (timestamps : List Int) : List Int :=
  spacingFilter none ((specCandidates normalized).map (fun i => timestamps.getD i 0))

/-- Spec §4.3 step 5: consecutive peak-to-peak differences. -/
def specIntervals : List Int → List Int
  | a :: b :: rest => (b - a) :: specIntervals (b :: rest)
  | _ => []

/-- Spec §4.3 step 5: the arithmetic mean of the consecutive
peak-to-peak intervals. -/
def specMeanInterval (peaks : List Int) : ℚ :=
  (sumI (specIntervals peaks) : ℚ) / ((specIntervals peaks).length : ℚ)

/-- Spec §4.3 in full: detrend by the mean, accept peaks, and turn the mean
peak-to-peak interval into a BPM (0 when fewer than 2 peaks are accepted). -/
def specEstimate (values : List ℚ) (timestamps : List Int) : ℚ :=
  let normalized := values.map (fun v => v - sumQ values / (values.length : ℚ))
  let peaks := specAcceptedPeaks normalized timestamps
  if peaks.length < 2 then 0 else 60000 / specMeanInterval peaks

/-! ### The detection session (refs, timers, camera stream) -/

/-- One side-effecting teardown call of `stopDetection`
(`usePulseDetection.ts` lines 221-256). Handles and streams are
identified by numeric ids. -/
inductive TeardownAction where
  | cancelAnimationFrame (h : Nat)
  | clearInterval (h : Nat)
  | clearTimeout (h : Nat)
  | stopTracks (s : Nat)
deriving DecidableEq, Repr

/-- The mutable state of the hook: the five `useState` cells and the
nullable refs (`animationFrameRef`, `intervalRef`, `timeoutRef`,
`streamRef`, plus the video element's `srcObject`). -/
structure SessionState where
  currentBPM : Int
  finalBPM : Option Int
  isDetecting : Bool
  progress : ℚ
  error : Option String
  animationFrame : Option Nat
  interval : Option Nat
  timeout : Option Nat
  stream : Option Nat
  videoSrc : Option Nat
  startTime : Int
  redValues : List ℚ
  timestamps : List Int
deriving DecidableEq, Repr

/-- The `if (ref.current) { effect(ref.current); ref.current = null; }`
pattern of `stopDetection`: null the cell, emitting the effect only when
the cell was non-null. -/
def clearCell (cell : Option Nat) (mk : Nat → TeardownAction) :
    Option Nat × List TeardownAction :=
  match cell with
  | some h => (none, [mk h])
  | none => (none, [])

/-- `stopDetection()` (`usePulseDetection.ts` lines 221-256): set
`isDetecting` false, cancel the frame loop, progress interval and timeout,
stop the stream's tracks, and null every handle plus the video source. -/
def stopDetection (s : SessionState) : SessionState × List TeardownAction :=
  let af := clearCell s.animationFrame TeardownAction.cancelAnimationFrame
  let iv := clearCell s.interval TeardownAction.clearInterval
  let tm := clearCell s.timeout TeardownAction.clearTimeout
  let st := clearCell s.stream TeardownAction.stopTracks
  ({ s with isDetecting := false, animationFrame := af.1, interval := iv.1,
            timeout := tm.1, stream := st.1, videoSrc := none },
   af.2 ++ iv.2 ++ tm.2 ++ st.2)

/-- The error message set by the timeout handler
(`usePulseDetection.ts` line 206). -/
def timeoutErrorMsg : String :=
  "Не удалось определить пульс. Плотно приложите палец к камере и держите неподвижно."

/-- The error message set by `startDetection`'s catch block
(`usePulseDetection.ts` line 216). -/
def cameraErrorMsg : String :=
  "Не удалось получить доступ к камере. Проверьте разрешения."

/-- The final estimate computed by the timeout handler
(`usePulseDetection.ts` lines 199-201): 0 when the buffer holds fewer than
60 samples. -/
def bpmFinal (s : SessionState) : ℚ :=
  if 60 ≤ s.redValues.length then calculateBPM s.redValues s.timestamps else 0

/-- The timeout callback of `startDetection` (`usePulseDetection.ts`
lines 198-208): compute the final estimate from the buffer, tear everything
down via `stopDetection`, then publish the rounded BPM when
`40 < bpm < 200` and report an error otherwise. -/
def onTimeout (s : SessionState) : SessionState × List TeardownAction :=
  let finalValue : ℚ := bpmFinal s
  let r := stopDetection s
  if 40 < finalValue ∧ finalValue < 200 then
    ({ r.1 with finalBPM := some (jsRound finalValue) }, r.2)
  else
    ({ r.1 with error := some timeoutErrorMsg }, r.2)

/-- The environment of one `startDetection()` run: which awaited browser
calls succeed. `getUserMedia = none` models a permission/device rejection;
`torchSupported` models `'torch' in capabilities`; `torchEnableOk` and
`playOk` model whether `track.applyConstraints` and `video.play()`
resolve. -/
structure AcquireEnv where
  getUserMedia : Option Nat
  torchSupported : Bool
  torchEnableOk : Bool
  playOk : Bool
  now : Int
  progressHandle : Nat
  timeoutHandle : Nat
deriving DecidableEq, Repr

/-- `startDetection()` (`usePulseDetection.ts` lines 153-219). The single
catch block (lines 214-218) only sets the error and `isDetecting := false`;
it does not stop tracks or null `streamRef`. -/
def startDetection (env : AcquireEnv) (s : SessionState) : SessionState :=
  let s0 := { s with error := none, finalBPM := none, currentBPM := 0,
                     progress := 0, redValues := [], timestamps := [] }
  match env.getUserMedia with
  | none => { s0 with error := some cameraErrorMsg, isDetecting := false }
  | some streamId =>
    let s1 := { s0 with stream := some streamId }
    if env.torchSupported && !env.torchEnableOk then
      { s1 with error := some cameraErrorMsg, isDetecting := false }
    else
      let s2 := { s1 with videoSrc := some streamId }
      if !env.playOk then
        { s2 with error := some cameraErrorMsg, isDetecting := false }
      else
        { s2 with isDetecting := true, startTime := env.now,
                  interval := some env.progressHandle,
                  timeout := some env.timeoutHandle }

/-- A fresh idle session state. -/
def initialState : SessionState :=
  ⟨0, none, false, 0, none, none, none, none, none, none, 0, [], []⟩

/-- A mid-detection session state with live handles and an empty buffer. -/
def detectingState : SessionState :=
  ⟨0, none, true, 0, none, some 9, some 1, some 2, some 3, some 3, 0, [], []⟩

/-! ## Helper lemmas -/

/-- Everything `stopDetection` does to the state and the exact effect list
it emits, plus idempotence. -/
theorem stopDetection_spec (s : SessionState) :
    (stopDetection s).1.isDetecting = false ∧
    (stopDetection s).1.animationFrame = none ∧
    (stopDetection s).1.interval = none ∧
    (stopDetection s).1.timeout = none ∧
    (stopDetection s).1.stream = none ∧
    (stopDetection s).1.videoSrc = none ∧
    (stopDetection s).1.error = s.error ∧
    (stopDetection s).1.finalBPM = s.finalBPM ∧
    (stopDetection s).2 =
      s.animationFrame.toList.map TeardownAction.cancelAnimationFrame ++
      s.interval.toList.map TeardownAction.clearInterval ++
      s.timeout.toList.map TeardownAction.clearTimeout ++
      s.stream.toList.map TeardownAction.stopTracks ∧
    stopDetection (stopDetection s).1 = ((stopDetection s).1, []) := by
  obtain ⟨c, f, d, p, e, af, iv, tm, st, vs, t0, rv, ts⟩ := s
  cases af <;> cases iv <;> cases tm <;> cases st <;>
    simp [stopDetection, clearCell]

/-- Appending one more sample commutes with `appendAll`. -/
theorem appendAll_append (l : List (ℚ × Int)) (x : ℚ × Int) :
    appendAll (l ++ [x]) = appendSample (appendAll l) x.1 x.2 := by
  simp [appendAll, List.foldl_append]

/-- Below capacity, `appendAll` is just the two projections. -/
theorem appendAll_small (l : List (ℚ × Int)) (h : l.length ≤ MAX_SAMPLES) :
    appendAll l = ⟨l.map Prod.fst, l.map Prod.snd⟩ := by
  induction l using List.reverseRecOn with
  | nil => rfl
  | append_singleton l x ih =>
      have hl : l.length ≤ MAX_SAMPLES := by
        simp only [List.length_append, List.length_singleton] at h
        omega
      have hcond : ¬ (MAX_SAMPLES < l.length + 1) := by
        simp only [List.length_append, List.length_singleton] at h
        omega
      rw [appendAll_append, ih hl]
      simp [appendSample, hcond]

/-- The spec's candidate test agrees with the scan loop's test. -/
theorem specIsCandidate_eq (normalized : List ℚ) (i : Nat) :
    specIsCandidate normalized i = isPeakCandidate normalized i := by
  unfold specIsCandidate isPeakCandidate
  cases h1 : decide (normalized.getD (i - 1) 0 < normalized.getD i 0) <;>
  cases h2 : decide (normalized.getD (i - 2) 0 < normalized.getD i 0) <;>
  simp [gt_iff_lt, h1, h2]

/-- Filtering `range n` by the bound test `2 ≤ i ∧ i + 2 < n` and a
predicate is filtering `range' 2 (n - 4)` by the predicate alone. -/
theorem filter_range_bounds (n : Nat) (p : Nat → Bool) :
    (List.range n).filter (fun i => decide (2 ≤ i) && decide (i + 2 < n) && p i) =
      (List.range' 2 (n - 4)).filter p := by
  rcases Nat.lt_or_ge n 4 with hn | hn
  · have h0 : n - 4 = 0 := by omega
    rw [h0]
    show _ = List.filter p []
    rw [List.filter_nil]
    apply List.filter_eq_nil_iff.mpr
    intro i hi
    simp only [List.mem_range] at hi
    simp only [Bool.and_eq_true, decide_eq_true_eq, not_and]
    rintro ⟨h2, h3⟩ _
    omega
  · obtain ⟨m, rfl⟩ : ∃ m, n = m + 4 := ⟨n - 4, by omega⟩
    have e1 : List.range' 2 m ++ List.range' (2 + m) 2 = List.range' 2 (2 + m) := by
      have h := List.range'_append 2 m 2 1
      simpa [Nat.add_comm] using h
    have e2 : List.range' 0 2 ++ List.range' 2 (2 + m) = List.range' 0 (m + 4) := by
      have h := List.range'_append 0 2 (2 + m) 1
      have h4 : 2 + m + 2 = m + 4 := by omega
      simpa [h4] using h
    have hsplit : List.range (m + 4) =
        List.range' 0 2 ++ (List.range' 2 m ++ List.range' (2 + m) 2) := by
      rw [List.range_eq_range', ← e2, e1]
    rw [hsplit, List.filter_append, List.filter_append]
    have hr0 : List.range' 0 2 = [0, 1] := rfl
    have hr2 : List.range' (2 + m) 2 = [2 + m, 3 + m] := by
      show List.range' (2 + m) 2 = _
      simp [List.range']
      omega
    have hp0 : (List.range' 0 2).filter
        (fun i => decide (2 ≤ i) && decide (i + 2 < m + 4) && p i) = [] := by
      rw [hr0]
      simp
    have hp2 : (List.range' (2 + m) 2).filter
        (fun i => decide (2 ≤ i) && decide (i + 2 < m + 4) && p i) = [] := by
      rw [hr2]
      simp only [List.filter_cons, List.filter_nil]
      have c1 : ¬ (2 + m + 2 < m + 4) := by omega
      have c2 : ¬ (3 + m + 2 < m + 4) := by omega
      simp [c1, c2]
    have hmid : (List.range' 2 m).filter
        (fun i => decide (2 ≤ i) && decide (i + 2 < m + 4) && p i) =
        (List.range' 2 m).filter p := by
      apply List.filter_congr
      intro i hi
      rw [List.mem_range'_1] at hi
      have c1 : 2 ≤ i := hi.1
      have c2 : i + 2 < m + 4 := by omega
      simp [c1, c2]
    rw [hp0, hp2, hmid]
    have h4 : m + 4 - 4 = m := by omega
    rw [h4]
    simp

/-- The spec's candidate positions are the loop's scan range filtered by
the loop's candidate test. -/
theorem candidates_eq (normalized : List ℚ) :
    specCandidates normalized =
      (List.range' 2 (normalized.length - 4)).filter (isPeakCandidate normalized) := by
  unfold specCandidates
  calc (List.range normalized.length).filter (fun i =>
          decide (2 ≤ i) && decide (i + 2 < normalized.length) &&
          specIsCandidate normalized i)
      = (List.range normalized.length).filter (fun i =>
          decide (2 ≤ i) && decide (i + 2 < normalized.length) &&
          isPeakCandidate normalized i) :=
        List.filter_congr (fun i _ => by rw [specIsCandidate_eq])
    _ = (List.range' 2 (normalized.length - 4)).filter (isPeakCandidate normalized) :=
        filter_range_bounds normalized.length (isPeakCandidate normalized)

/-- The imperative accumulation of the peak-scan loop equals the spec's
"filter candidates, then enforce spacing" pipeline, for any scan range and
accumulator. -/
theorem foldl_peakStep_eq (normalized : List ℚ) (ts : List Int) (idx : List Nat) :
    ∀ acc : List Int,
      (idx.foldl (peakStep normalized ts) acc).reverse =
        acc.reverse ++ spacingFilter acc.head?
          ((idx.filter (isPeakCandidate normalized)).map (fun i => ts.getD i 0)) := by
  induction idx with
  | nil =>
      intro acc
      simp [spacingFilter]
  | cons i rest ih =>
      intro acc
      simp only [List.foldl_cons, List.filter_cons]
      cases hc : isPeakCandidate normalized i with
      | false =>
          rw [ih]
          simp [peakStep, hc]
      | true =>
          rw [ih]
          cases acc with
          | nil =>
              simp [peakStep, hc, spacingFilter]
          | cons p rest' =>
              simp [peakStep, hc, spacingFilter, minPeakDistance]
              split_ifs with h
              · simp
              · simp

/-- The peak scan of `calculateBPM` computes exactly the spec's accepted
peaks. -/
theorem detectPeaks_eq_spec (normalized : List ℚ) (ts : List Int) :
    detectPeaks normalized ts = specAcceptedPeaks normalized ts := by
  unfold detectPeaks specAcceptedPeaks
  rw [foldl_peakStep_eq, candidates_eq]
  simp

/-- The loop's consecutive-difference array equals the spec's pairwise
peak-to-peak intervals. -/
theorem zipWith_tail_eq_specIntervals (l : List Int) :
    List.zipWith (fun a b => a - b) l.tail l = specIntervals l := by
  induction l with
  | nil => rfl
  | cons a l ih =>
      cases l with
      | nil => rfl
      | cons b rest =>
          simp only [List.tail_cons, List.zipWith_cons_cons, specIntervals]
          congr 1

/-- `calculateBPM` with the length guard discharged. -/
theorem calculateBPM_eq (values : List ℚ) (ts : List Int)
    (h60 : ¬ values.length < 60) :
    calculateBPM values ts =
      if (detectPeaks (values.map (fun v => v - sumQ values / (values.length : ℚ))) ts).length < 2
      then 0
      else 60000 /
        ((sumI (List.zipWith (fun a b => a - b)
            (detectPeaks (values.map (fun v => v - sumQ values / (values.length : ℚ))) ts).tail
            (detectPeaks (values.map (fun v => v - sumQ values / (values.length : ℚ))) ts)) : ℚ) /
         ((List.zipWith (fun a b => a - b)
            (detectPeaks (values.map (fun v => v - sumQ values / (values.length : ℚ))) ts).tail
            (detectPeaks (values.map (fun v => v - sumQ values / (values.length : ℚ))) ts)).length : ℚ)) := by
  simp only [calculateBPM, if_neg h60]

/-- One scan-loop step keeps the accumulated (reversed) peak list spaced
more than 300 ms apart. -/
theorem peakStep_chain (normalized : List ℚ) (ts : List Int) (acc : List Int) (i : Nat)
    (h : acc.Chain' (fun a b => 300 < a - b)) :
    (peakStep normalized ts acc i).Chain' (fun a b => 300 < a - b) := by
  cases hc : isPeakCandidate normalized i with
  | false => simpa [peakStep, hc] using h
  | true =>
      cases acc with
      | nil => simp [peakStep, hc]
      | cons p rest =>
          simp only [peakStep, hc, if_true]
          split_ifs with hd
          · exact List.chain'_cons.mpr ⟨hd, h⟩
          · exact h

/-- The accepted peak timestamps are spaced more than 300 ms apart. -/
theorem detectPeaks_chain (normalized : List ℚ) (ts : List Int) :
    (detectPeaks normalized ts).Chain' (fun a b => 300 < b - a) := by
  unfold detectPeaks
  rw [List.chain'_reverse]
  have key : ∀ (idx : List Nat) (acc : List Int),
      acc.Chain' (fun a b => 300 < a - b) →
      (idx.foldl (peakStep normalized ts) acc).Chain' (fun a b => 300 < a - b) := by
    intro idx
    induction idx with
    | nil => intro acc h; exact h
    | cons i rest ih => intro acc h; exact ih _ (peakStep_chain normalized ts acc i h)
  exact key _ [] List.chain'_nil

/-- Consecutive differences of a chain spaced more than 300 apart are all
above 300. -/
theorem chain'_zipWith_sub (l : List Int) (h : l.Chain' (fun a b => 300 < b - a)) :
    ∀ x ∈ List.zipWith (fun a b => a - b) l.tail l, 300 < x := by
  induction l with
  | nil => intro x hx; simp at hx
  | cons a l ih =>
      cases l with
      | nil => intro x hx; simp at hx
      | cons b rest =>
          intro x hx
          rw [List.chain'_cons] at h
          simp only [List.tail_cons, List.zipWith_cons_cons] at hx
          rcases List.mem_cons.mp hx with h1 | h2
          · subst h1
            exact h.1
          · exact ih h.2 x h2

/-- Lower bound on a fold of additions over entries above 300. -/
theorem foldl_add_ge (l : List Int) :
    ∀ acc : Int, (∀ x ∈ l, 300 < x) → acc + 301 * l.length ≤ l.foldl (· + ·) acc := by
  induction l with
  | nil =>
      intro acc _
      simp
  | cons x l ih =>
      intro acc h
      have hx : 300 < x := h x (List.mem_cons_self x l)
      have hrest := ih (acc + x) (fun y hy => h y (List.mem_cons_of_mem x hy))
      simp only [List.foldl_cons, List.length_cons] at *
      omega

/-! ## Claims -/

/-- Claim C3: for every buffer holding fewer than 60 samples,
`calculateBPM` returns 0 regardless of the buffer's contents and
timestamps. -/
theorem calculateBPM_short_returns_zero (values : List ℚ) (timestamps : List Int)
    (h : values.length < 60) : calculateBPM values timestamps = 0 := by
  simp [calculateBPM, h]

theorem calculateBPM_short_returns_zero_witness :
    ([(1:ℚ), 2, 3].length < 60) ∧ calculateBPM [1, 2, 3] [0, 10, 20] = 0 :=
  ⟨by decide, calculateBPM_short_returns_zero [1, 2, 3] [0, 10, 20] (by decide)⟩

/-- Claim C7: a frame whose region mean brightness is at most 80 or at
least 240 is rejected (no sample appended), a brightness strictly between
80 and 240 is accepted; in particular 80 and 240 are rejected while 81 and
239 are accepted. -/
theorem brightness_gate_exclusive_bounds :
    (∀ (buf : Buffer) (r g b : ℚ) (t : Int),
        frameStep buf r g b t =
          if (r + g + b) / 3 ≤ 80 ∨ 240 ≤ (r + g + b) / 3 then buf
          else appendSample buf r t) ∧
    frameStep ⟨[], []⟩ 80 80 80 0 = ⟨[], []⟩ ∧
    frameStep ⟨[], []⟩ 240 240 240 0 = ⟨[], []⟩ ∧
    frameStep ⟨[], []⟩ 81 81 81 0 = ⟨[81], [0]⟩ ∧
    frameStep ⟨[], []⟩ 239 239 239 0 = ⟨[239], [0]⟩ := by
  refine ⟨?_, by norm_num [frameStep, appendSample],
    by norm_num [frameStep, appendSample],
    by norm_num [frameStep, appendSample, MAX_SAMPLES],
    by norm_num [frameStep, appendSample, MAX_SAMPLES]⟩
  intro buf r g b t
  unfold frameStep
  rcases le_or_lt ((r + g + b) / 3) 80 with h1 | h1
  · rw [if_neg (by push_neg; intro h; linarith), if_pos (Or.inl h1)]
  · rcases le_or_lt 240 ((r + g + b) / 3) with h2 | h2
    · rw [if_neg (by push_neg; intro _; linarith), if_pos (Or.inr h2)]
    · rw [if_pos ⟨h1, h2⟩, if_neg (by push_neg; exact ⟨h1, h2⟩)]

/-- Claim C9: one `stopDetection` call cancels the frame-loop handle, the
progress interval and the timeout, stops the stream's tracks, and nulls all
four refs with `isDetecting` false; a second call (or a call with handles
already null) emits no further cancellation and leaves the state
unchanged. -/
theorem stopDetection_idempotent_null_tolerant (s : SessionState) :
    (stopDetection s).1.isDetecting = false ∧
    (stopDetection s).1.animationFrame = none ∧
    (stopDetection s).1.interval = none ∧
    (stopDetection s).1.timeout = none ∧
    (stopDetection s).1.stream = none ∧
    (stopDetection s).1.videoSrc = none ∧
    (stopDetection s).2 =
      s.animationFrame.toList.map TeardownAction.cancelAnimationFrame ++
      s.interval.toList.map TeardownAction.clearInterval ++
      s.timeout.toList.map TeardownAction.clearTimeout ++
      s.stream.toList.map TeardownAction.stopTracks ∧
    stopDetection (stopDetection s).1 = ((stopDetection s).1, []) := by
  obtain ⟨h1, h2, h3, h4, h5, h6, _, _, h9, h10⟩ := stopDetection_spec s
  exact ⟨h1, h2, h3, h4, h5, h6, h9, h10⟩

/-- Claim C6 (counterexample): when the device reports the torch capability
and the enable attempt fails, the session does NOT proceed to `Detecting`
with no error — refuting the claimed best-effort behaviour. -/
theorem torch_enable_failure_not_ignored_cex :
    ¬ ((startDetection ⟨some 3, true, false, true, 0, 1, 2⟩ initialState).isDetecting = true ∧
       (startDetection ⟨some 3, true, false, true, 0, 1, 2⟩ initialState).error = none) := by
  decide

/-- Claim C6 (amended): when the device reports the torch capability and
the enable attempt fails, the rejection propagates to `startDetection`'s
catch block: the camera error is surfaced and the session never reaches
`Detecting`. -/
theorem torch_enable_failure_aborts (env : AcquireEnv) (s : SessionState)
    (hsup : env.torchSupported = true) (hok : env.torchEnableOk = false)
    (hstream : env.getUserMedia.isSome = true) :
    (startDetection env s).isDetecting = false ∧
    (startDetection env s).error = some cameraErrorMsg := by
  obtain ⟨gum, tsup, tok, pok, now, ph, th⟩ := env
  cases gum
  · simp at hstream
  · simp_all [startDetection]

theorem torch_enable_failure_aborts_witness :
    ((⟨some 3, true, false, true, 0, 1, 2⟩ : AcquireEnv).torchSupported = true) ∧
    ((⟨some 3, true, false, true, 0, 1, 2⟩ : AcquireEnv).torchEnableOk = false) ∧
    ((⟨some 3, true, false, true, 0, 1, 2⟩ : AcquireEnv).getUserMedia.isSome = true) ∧
    (startDetection ⟨some 3, true, false, true, 0, 1, 2⟩ initialState).isDetecting = false ∧
    (startDetection ⟨some 3, true, false, true, 0, 1, 2⟩ initialState).error = some cameraErrorMsg := by
  refine ⟨rfl, rfl, rfl, ?_⟩
  exact torch_enable_failure_aborts ⟨some 3, true, false, true, 0, 1, 2⟩ initialState rfl rfl rfl

/-- Claim C5 (code bug): after the camera stream is obtained, a failure of
the torch-enable call or of video playback lands in the catch block, which
surfaces the error and clears `isDetecting` but leaves `streamRef` holding
the acquired stream — its tracks are never stopped and the handle is not
nulled, so teardown is not performed on these failure paths. -/
theorem startDetection_failure_retains_stream :
    ((startDetection ⟨some 7, true, false, true, 0, 1, 2⟩ initialState).error = some cameraErrorMsg ∧
     (startDetection ⟨some 7, true, false, true, 0, 1, 2⟩ initialState).isDetecting = false ∧
     (startDetection ⟨some 7, true, false, true, 0, 1, 2⟩ initialState).stream = some 7) ∧
    ((startDetection ⟨some 7, false, true, false, 0, 1, 2⟩ initialState).error = some cameraErrorMsg ∧
     (startDetection ⟨some 7, false, true, false, 0, 1, 2⟩ initialState).isDetecting = false ∧
     (startDetection ⟨some 7, false, true, false, 0, 1, 2⟩ initialState).stream = some 7) :=
  ⟨⟨rfl, rfl, rfl⟩, ⟨rfl, rfl, rfl⟩⟩

/-- Claim C4: the timeout handler computes a final estimate from the buffer
(0 when it holds fewer than 60 samples), performs full teardown, then
publishes the rounded estimate as `finalBPM` with no error when it is
strictly between 40 and 200, and otherwise leaves `finalBPM` empty and
reports an error. -/
theorem onTimeout_final_result (s : SessionState)
    (hfb : s.finalBPM = none) (herr : s.error = none) :
    (s.redValues.length < 60 → bpmFinal s = 0) ∧
    (onTimeout s).1.isDetecting = false ∧
    (onTimeout s).1.animationFrame = none ∧
    (onTimeout s).1.interval = none ∧
    (onTimeout s).1.timeout = none ∧
    (onTimeout s).1.stream = none ∧
    (onTimeout s).1.videoSrc = none ∧
    (onTimeout s).2 = (stopDetection s).2 ∧
    (40 < bpmFinal s ∧ bpmFinal s < 200 →
      (onTimeout s).1.finalBPM = some (jsRound (bpmFinal s)) ∧
      (onTimeout s).1.error = none) ∧
    (¬ (40 < bpmFinal s ∧ bpmFinal s < 200) →
      (onTimeout s).1.finalBPM = none ∧
      (onTimeout s).1.error = some timeoutErrorMsg) := by
  obtain ⟨h1, h2, h3, h4, h5, h6, h7, h8, _, _⟩ := stopDetection_spec s
  by_cases hc : 40 < bpmFinal s ∧ bpmFinal s < 200
  · simp only [onTimeout, if_pos hc]
    refine ⟨?_, h1, h2, h3, h4, h5, h6, by trivial, fun _ => ⟨by trivial, ?_⟩, fun hn => absurd hc hn⟩
    · intro hlen
      simp [bpmFinal, Nat.not_le_of_lt hlen]
    · simpa [h7] using herr
  · simp only [onTimeout, if_neg hc]
    refine ⟨?_, h1, h2, h3, h4, h5, h6, by trivial, fun hp => absurd hp hc, fun _ => ⟨?_, by trivial⟩⟩
    · intro hlen
      simp [bpmFinal, Nat.not_le_of_lt hlen]
    · simpa [h8] using hfb

/-- Claim C8: appending a sample taken at a time at or after every buffered
timestamp preserves the buffer invariant (aligned lengths, at most 450
entries, non-decreasing timestamps); appending 451 samples to the empty
buffer evicts exactly the first-appended sample of both sequences together,
leaving 450 pairwise-aligned entries. -/
theorem buffer_append_invariant :
    (∀ (buf : Buffer) (v : ℚ) (t : Int),
        BufferInv buf →
        buf.timestamps.all (fun u => decide (u ≤ t)) = true →
        BufferInv (appendSample buf v t)) ∧
    (∀ samples : List (ℚ × Int), samples.length = 451 →
        appendAll samples =
          ⟨(samples.map Prod.fst).tail, (samples.map Prod.snd).tail⟩ ∧
        (appendAll samples).values.length = 450) := by
  constructor
  · intro buf v t hinv hall
    obtain ⟨hlen, hcap, hchain⟩ := hinv
    have hle : ∀ u ∈ buf.timestamps, u ≤ t := by
      intro u hu
      have := List.all_eq_true.mp hall u hu
      simpa using this
    have hchain' : (buf.timestamps ++ [t]).Chain' (· ≤ ·) := by
      rw [List.chain'_append]
      refine ⟨hchain, List.chain'_singleton t, ?_⟩
      intro x hx y hy
      obtain ⟨hne, hxeq⟩ := List.mem_getLast?_eq_getLast hx
      simp only [List.head?_cons, Option.mem_def, Option.some.injEq] at hy
      subst hxeq hy
      exact hle _ (List.getLast_mem hne)
    by_cases hgt : MAX_SAMPLES < (buf.values ++ [v]).length
    · have heq : appendSample buf v t =
          ⟨(buf.values ++ [v]).tail, (buf.timestamps ++ [t]).tail⟩ := by
        simp only [appendSample]
        rw [if_pos hgt]
      rw [heq]
      refine ⟨?_, ?_, hchain'.tail⟩
      · simp [hlen]
      · simp only [List.length_tail, List.length_append, List.length_singleton] at *
        omega
    · have heq : appendSample buf v t = ⟨buf.values ++ [v], buf.timestamps ++ [t]⟩ := by
        simp only [appendSample]
        rw [if_neg hgt]
      rw [heq]
      refine ⟨?_, ?_, hchain'⟩
      · simp [hlen]
      · simp only [List.length_append, List.length_singleton] at hgt ⊢
        omega
  · intro samples h451
    induction samples using List.reverseRecOn with
    | nil => simp at h451
    | append_singleton l x _ =>
        have hl : l.length = MAX_SAMPLES := by
          simp only [List.length_append, List.length_singleton] at h451
          simp [MAX_SAMPLES]
          omega
        have hcond : MAX_SAMPLES < (l.map Prod.fst ++ [x.1]).length := by
          simp [hl]
        have heq : appendSample ⟨l.map Prod.fst, l.map Prod.snd⟩ x.1 x.2 =
            ⟨(l.map Prod.fst ++ [x.1]).tail, (l.map Prod.snd ++ [x.2]).tail⟩ := by
          simp only [appendSample]
          rw [if_pos hcond]
        rw [appendAll_append, appendAll_small l (le_of_eq hl), heq]
        constructor
        · simp
        · simp [hl, MAX_SAMPLES]

theorem buffer_append_invariant_witness :
    BufferInv ⟨[1], [5]⟩ ∧
    ([(5 : Int)].all (fun u => decide (u ≤ 9)) = true) ∧
    BufferInv (appendSample ⟨[1], [5]⟩ 2 9) ∧
    (List.replicate 451 ((0 : ℚ), (0 : Int))).length = 451 ∧
    (appendAll (List.replicate 451 ((0 : ℚ), (0 : Int)))).values.length = 450 := by
  have hinv : BufferInv ⟨[1], [5]⟩ := by
    refine ⟨rfl, ?_, ?_⟩
    · simp [MAX_SAMPLES]
    · simp
  refine ⟨hinv, by decide, ?_, by rw [List.length_replicate], ?_⟩
  · exact buffer_append_invariant.1 ⟨[1], [5]⟩ 2 9 hinv (by decide)
  · exact (buffer_append_invariant.2 _ (by rw [List.length_replicate])).2

/-- Claim C1: for buffers of at least 60 samples, `calculateBPM` subtracts
the mean of all buffered red values from every sample, and then returns
60000 divided by the arithmetic mean of consecutive accepted-peak timestamp
differences when at least 2 peaks are accepted, and 0 otherwise — i.e. it
agrees with the spec's estimator pipeline. -/
theorem estimate_matches_spec_pipeline (values : List ℚ) (timestamps : List Int)
    (h : 60 ≤ values.length) :
    calculateBPM values timestamps = specEstimate values timestamps := by
  have h60 : ¬ values.length < 60 := Nat.not_lt.mpr h
  rw [calculateBPM_eq values timestamps h60]
  simp only [specEstimate, specMeanInterval, detectPeaks_eq_spec,
    zipWith_tail_eq_specIntervals]

theorem estimate_matches_spec_pipeline_witness :
    (60 ≤ (List.replicate 60 (1 : ℚ)).length) ∧
    calculateBPM (List.replicate 60 1) (List.replicate 60 0) =
      specEstimate (List.replicate 60 1) (List.replicate 60 0) :=
  ⟨by rw [List.length_replicate],
   estimate_matches_spec_pipeline _ _ (by rw [List.length_replicate])⟩

/-- Claim C2: a position `i` with `2 ≤ i ≤ n - 3` is a peak candidate
exactly when its zero-centered value strictly exceeds its two neighbours on
each side and is strictly positive; a candidate is accepted only when its
timestamp is more than 300 ms after the previously accepted peak's — so two
candidate peaks 250 ms apart collapse to one accepted peak while two peaks
301 ms apart are both accepted. -/
theorem peak_candidates_and_spacing :
    (∀ (normalized : List ℚ) (ts : List Int),
        detectPeaks normalized ts = specAcceptedPeaks normalized ts) ∧
    (∀ (normalized : List ℚ) (i : Nat),
        i ∈ specCandidates normalized ↔
          (2 ≤ i ∧ i + 2 < normalized.length ∧
           normalized.getD (i - 2) 0 < normalized.getD i 0 ∧
           normalized.getD (i - 1) 0 < normalized.getD i 0 ∧
           normalized.getD (i + 1) 0 < normalized.getD i 0 ∧
           normalized.getD (i + 2) 0 < normalized.getD i 0 ∧
           0 < normalized.getD i 0)) ∧
    detectPeaks [-1, -1, 1, -1, -1, 1, -1, -1] [0, 0, 100, 0, 0, 350, 0, 0] = [100] ∧
    detectPeaks [-1, -1, 1, -1, -1, 1, -1, -1] [0, 0, 100, 0, 0, 401, 0, 0] = [100, 401] := by
  refine ⟨detectPeaks_eq_spec, ?_, by decide, by decide⟩
  intro normalized i
  unfold specCandidates specIsCandidate
  simp only [List.mem_filter, List.mem_range, Bool.and_eq_true, decide_eq_true_eq]
  have himp : i + 2 < normalized.length → i < normalized.length := by omega
  tauto

/-- Claim C10: `calculateBPM` returns either 0 or a value strictly below
200, because every accepted peak is more than 300 ms after the previous
one, so the mean interval exceeds 300 ms and 60000 divided by it is below
200. -/
theorem calculateBPM_never_reaches_200 (values : List ℚ) (timestamps : List Int) :
    calculateBPM values timestamps = 0 ∨ calculateBPM values timestamps < 200 := by
  by_cases h60 : values.length < 60
  · left
    simp [calculateBPM, h60]
  · rw [calculateBPM_eq values timestamps h60]
    set nz := values.map (fun v => v - sumQ values / (values.length : ℚ)) with hnz
    set peaks := detectPeaks nz timestamps with hpk
    by_cases h2 : peaks.length < 2
    · left
      rw [if_pos h2]
    · right
      rw [if_neg h2]
      set intervals := List.zipWith (fun a b => a - b) peaks.tail peaks with hiv
      have hchain : peaks.Chain' (fun a b => 300 < b - a) := by
        rw [hpk]
        exact detectPeaks_chain nz timestamps
      have hall : ∀ x ∈ intervals, 300 < x := by
        rw [hiv]
        exact chain'_zipWith_sub peaks hchain
      have hlen2 : 2 ≤ peaks.length := Nat.not_lt.mp h2
      have hlen : 1 ≤ intervals.length := by
        rw [hiv, List.length_zipWith, List.length_tail]
        omega
      have hsum : (0 : Int) + 301 * intervals.length ≤ sumI intervals :=
        foldl_add_ge intervals 0 hall
      have hL1 : (1 : ℚ) ≤ (intervals.length : ℚ) := by exact_mod_cast hlen
      have hposL : (0 : ℚ) < (intervals.length : ℚ) := by linarith
      have hsumQ : (301 : ℚ) * (intervals.length : ℚ) ≤ (sumI intervals : ℚ) := by
        exact_mod_cast (by omega : (301 : Int) * intervals.length ≤ sumI intervals)
      have havg : (300 : ℚ) < (sumI intervals : ℚ) / (intervals.length : ℚ) := by
        rw [lt_div_iff₀ hposL]
        linarith
      have hpos : (0 : ℚ) < (sumI intervals : ℚ) / (intervals.length : ℚ) := by linarith
      rw [div_lt_iff₀ hpos]
      linarith

theorem onTimeout_final_result_witness :
    detectingState.finalBPM = none ∧ detectingState.error = none ∧
    (onTimeout detectingState).1.isDetecting = false ∧
    (onTimeout detectingState).1.stream = none ∧
    (onTimeout detectingState).1.finalBPM = none ∧
    (onTimeout detectingState).1.error = some timeoutErrorMsg := by
  have h := onTimeout_final_result detectingState rfl rfl
  have hn : ¬ (40 < bpmFinal detectingState ∧ bpmFinal detectingState < 200) := by
    norm_num [bpmFinal, detectingState]
  exact ⟨rfl, rfl, h.2.1, h.2.2.2.2.2.1,
    (h.2.2.2.2.2.2.2.2.2 hn).1, (h.2.2.2.2.2.2.2.2.2 hn).2⟩

end PulseMonitor
